import Mathlib

/-!
Verification of the p2 replication-controller and consul-transaction layer.

The definitions below shallowly embed the Go sources:
* `pkg/store/consul/transaction` (implementation absent from the tree; the
  behaviour is modelled from the spec and pinned by the package's tests in
  `transaction_test.go`),
* `pkg/rc/replication_controller.go`.

Transaction buffers live in a small heap so that the Go pointer-sharing
questions (does a derived context mutate its parent's buffer?) are
expressible; contexts are indices into that heap.
-/

namespace P2

/-- A consul KV transaction operation (`api.KVTxnOp`); only shape matters
for the transaction-layer claims. -/
structure KVTxnOp where
  verb : String := ""
  key : String := ""
  value : String := ""
deriving DecidableEq, Repr, Inhabited

namespace transaction

/-- Error taxonomy of the transaction package (`ErrTooManyOperations` etc.). -/
inductive TxnError where
  | tooManyOperations
  | alreadyCommitted
  | noTransaction
deriving DecidableEq, Repr

/-- One transaction record: the buffered KV operations plus the committed
flag.  Mirrors the `transaction` struct observed through
`getTxnFromContext` in the tests. -/
structure Txn where
  kvOps : List KVTxnOp
  committed : Bool
deriving DecidableEq, Repr, Inhabited

/-- The heap of live transaction buffers; a context refers to one buffer by
index.  This models Go heap cells so that sharing (or not) of a buffer
between a parent and a derived context is observable. -/
structure Heap where
  cells : List Txn
deriving DecidableEq, Repr

/-- A context that carries a transaction: an index into the heap. -/
structure Ctx where
  cell : Nat
deriving DecidableEq, Repr

/-- Modelled from the spec: `transaction.New` attaches a fresh transaction
to the returned context.  The spec says a derived context shares the
parent's buffer, but the package's own test
(`TestContextInheritsOperations`) asserts the two buffers diverge after
derivation, so the fresh buffer is initialized with a copy of the parent's
operations and is a distinct heap cell. -/
def New (h : Heap) (parent : Option Ctx) : Heap × Ctx :=
  let inherited : List KVTxnOp :=
    match parent with
    | some p => ((h.cells.getD p.cell default).kvOps)
    | none => []
  (⟨h.cells ++ [⟨inherited, false⟩]⟩, ⟨h.cells.length⟩)

/-- Modelled from the spec: `transaction.Add` appends one KV operation to
the context's buffer; it fails with `NoTransaction` when the context
carries none, with `AlreadyCommitted` after commit, and with
`TooManyOperations` once the buffer holds 64 operations (pinned by
`TestAdd`). -/
def Add (h : Heap) (c : Ctx) (op : KVTxnOp) : Except TxnError Heap :=
  match h.cells[c.cell]? with
  | none => .error .noTransaction
  | some t =>
    if t.committed then .error .alreadyCommitted
    else if 64 ≤ t.kvOps.length then .error .tooManyOperations
    else .ok ⟨h.cells.set c.cell ⟨t.kvOps ++ [op], t.committed⟩⟩

/-- The operation count observed through a context, as the tests observe it
via `len( *txn.kvOps)`. -/
def opCount (h : Heap) (c : Ctx) : Nat :=
  (h.cells.getD c.cell default).kvOps.length

/-- Iterate `Add` through one context `n` times. -/
def addTimes (h : Heap) (c : Ctx) (op : KVTxnOp) : Nat → Except TxnError Heap
  | 0 => .ok h
  | n + 1 =>
    match addTimes h c op n with
    | .ok h' => Add h' c op
    | .error e => .error e

/-- Outcome of a single `Txner.Txn` call against the consul store:
success (`ok=true, err=nil`), rollback (`ok=false, err=nil`), or a
transport error (`err` non-nil). -/
inductive TxnOutcome where
  | success
  | rollback
  | transportErr
deriving DecidableEq, Repr

/-- Modelled from the spec: the retry loop of `CommitWithRetries`.
`txner i` is the outcome of the `i`-th store call, `fuel` is the number of
remaining retries before context cancellation is observed (the in-flight
call always completes).  Returns (index after last call, ok, whether the
returned error is non-nil). -/
def retriesLoop (txner : Nat → TxnOutcome) : Nat → Nat → Nat × Bool × Bool
  | i, 0 =>
    match txner i with
    | .success => (i + 1, true, false)
    | .rollback => (i + 1, false, false)
    | .transportErr => (i + 1, false, true)
  | i, fuel + 1 =>
    match txner i with
    | .success => (i + 1, true, false)
    | .rollback => (i + 1, false, false)
    | .transportErr => retriesLoop txner (i + 1) fuel

/-- Modelled from the spec: `CommitWithRetries` retries with fixed back-off
only on transport errors, returns immediately on success or rollback, and
returns `ok=false` with the last error once the context is cancelled.
`cancel` is the number of completed calls after which cancellation becomes
observable.  Result: (number of store calls, ok, error non-nil). -/
def CommitWithRetries (txner : Nat → TxnOutcome) (cancel : Nat) : Nat × Bool × Bool :=
  retriesLoop txner 0 cancel

end transaction

/-- Allocation strategy of an RC (`fields.AllocationStrategy`): cattle RCs
may transfer pods between interchangeable nodes, pinned RCs may not. -/
inductive Strategy where
  | cattle
  | pinned
deriving DecidableEq, Repr

/-- A pod manifest, reduced to its two observables used by the RC:
`manifest.ID()` and `manifest.SHA()`. -/
structure Manifest where
  id : String
  sha : String
deriving DecidableEq, Repr

/-- The `fields.RC` record fields read by the reconciler.
`replicasDesired` is a Go `int`, hence `Int`. -/
structure RC where
  id : String
  manifest : Manifest
  replicasDesired : Int
  disabled : Bool
  podLabels : List (String × String)
  allocationStrategy : Strategy
deriving DecidableEq, Repr

/-- The label applied to pods owned by an RC (`RCIDLabel`). -/
def RCIDLabel : String := "replication_controller_id"

/-- The reserved pod-id label (`rcstore.PodIDLabel`, per spec section 6). -/
def PodIDLabel : String := "pod_id"

/-- A Go map write `m[k] = v` on a map modelled as an association list:
drop any existing binding of `k`, then bind `k` to `v`. -/
def mapSet (m : List (String × String)) (k v : String) : List (String × String) :=
  m.filter (fun kv => kv.1 ≠ k) ++ [(k, v)]

/-- A Go map read `m[k]` on the association-list model. -/
def mapGet (m : List (String × String)) (k : String) : Option String :=
  (m.find? (fun kv => kv.1 = k)).map Prod.snd

/-- `computePodLabels`: user-requested labels first, then the reserved
pod-id and replication-controller-id labels written over them. -/
def computePodLabels (rc : RC) : List (String × String) :=
  let userLabels := rc.podLabels.foldl (fun m kv => mapSet m kv.1 kv.2) []
  mapSet (mapSet userLabels PodIDLabel rc.manifest.id) RCIDLabel rc.id

/-- `labels.MakePodLabelKey`: the pod-label key `<node>/<pod_id>`. -/
def MakePodLabelKey (node podId : String) : String :=
  node ++ "/" ++ podId

/-- One KV operation appended by the reconciler to a transaction, tagged by
which port call produced it. -/
inductive Op where
  | setLabels (labelKey : String) (labels : List (String × String))
  | setPod (node : String) (man : Manifest)
  | removeLabels (labelKey : String) (keys : List String)
  | deletePod (node : String) (podId : String)
  | auditLog (before afterNodes : List String)
  | casStatus (rcId : String) (oldNode newNode : String)
deriving DecidableEq, Repr

/-- `scheduleNoAudit`: append a pod-label write (`SetLabelsTxn` with
`computePodLabels`) followed by an intent write (`SetPodTxn` on the intent
tree) for `node`. -/
def scheduleNoAudit (rc : RC) (node : String) : List Op :=
  [Op.setLabels (MakePodLabelKey node rc.manifest.id) (computePodLabels rc),
   Op.setPod node rc.manifest]

/-- `unschedule`: append an intent delete (`DeletePodTxn`) followed by a
label remove (`RemoveLabelsTxn` of every key `computePodLabels` sets) for
`node`. -/
def unscheduleOps (rc : RC) (node : String) : List Op :=
  [Op.deletePod node rc.manifest.id,
   Op.removeLabels (MakePodLabelKey node rc.manifest.id)
     ((computePodLabels rc).map Prod.fst)]

/-- Whether an operation is a scheduling operation (anything but the
audit-log entry an auditing transaction appends at commit). -/
def isSchedulingOp : Op → Bool
  | .auditLog _ _ => false
  | _ => true

/-- An auditing transaction (`auditingTransaction`, source file absent;
modelled from spec section 4.B): a buffer of operations plus the node set
as it was when the transaction was opened and as it evolves through
`AddNode` / `RemoveNode`. -/
structure AuditTxn where
  startNodes : List String
  nodes : List String
  ops : List Op
deriving DecidableEq, Repr

/-- `newAuditingTransaction`: an empty buffer whose node set starts at the
current placement. -/
def newAuditingTransaction (current : List String) : AuditTxn :=
  ⟨current, current, []⟩

/-- Modelled from the spec: committing an auditing transaction appends one
audit-log operation describing the node set before and after, then submits
the buffer. -/
def commitAudit (txn : AuditTxn) : List Op :=
  txn.ops ++ [Op.auditLog txn.startNodes txn.nodes]

/-- Lexicographic comparison of character lists: the hostname order under
which `types.NewNodeSet(...).ListNodes()` lists nodes.  (Structurally
recursive so that concrete comparisons evaluate.) -/
def lexLe : List Char → List Char → Bool
  | [], _ => true
  | _ :: _, [] => false
  | a :: as, b :: bs =>
    if a < b then true
    else if b < a then false
    else lexLe as bs

/-- The lexicographic order on hostnames. -/
def nodeLe (a b : String) : Prop := lexLe a.data b.data = true

instance : DecidableRel nodeLe := fun a b => by
  unfold nodeLe
  infer_instance

/-- The sorted list of distinct members of `l`
(`types.NewNodeSet(...).ListNodes()` returns nodes in sorted order). -/
def sortNodes (l : List String) : List String :=
  List.insertionSort nodeLe l.dedup

/-- The candidate list of `addPods`: eligible minus current, listed in
sorted order by hostname (`possible.ListNodes()`). -/
def possibleSorted (current eligible : List String) : List String :=
  sortNodes (eligible.filter (fun n => ¬ (n ∈ current)))

/-- Result of one reconciler sub-pass: the committed transactions in
order, the nodes handed to `schedule` (or `unschedule`) in order, the
number of alerts sent, and the error returned, if any. -/
structure PassResult where
  committed : List (List Op)
  visited : List String
  alerts : Nat
  err : Option String
deriving DecidableEq, Repr

/-- The loop of `addPods`, iterating `i` from `0` while `remaining`
schedules are still due.  Every 5 iterations past zero the running
auditing transaction is committed and a fresh one is opened seeded with
the updated node set; if the candidate list is exhausted
(`len(possibleSorted) < i+1`) an alert is sent, the pending batch is
committed, and the pass fails.  Otherwise `candidates[i]` is scheduled
(label write + intent write + `AddNode`).  Store commits are modelled as
succeeding; transport errors and rollbacks are environment failures
outside these claims. -/
def addPodsLoop (rc : RC) (cand : List String) :
    Nat → Nat → AuditTxn → List (List Op) → List String → Nat → PassResult
  | _, 0, txn, committed, visited, alerts =>
    ⟨committed ++ [commitAudit txn], visited, alerts, none⟩
  | i, remaining + 1, txn, committed, visited, alerts =>
    let batch :=
      if i % 5 == 0 && decide (0 < i) then
        (newAuditingTransaction txn.nodes, committed ++ [commitAudit txn])
      else
        (txn, committed)
    if h : cand.length < i + 1 then
      ⟨batch.2 ++ [commitAudit batch.1], visited, alerts + 1,
        some "Not enough nodes to meet desire"⟩
    else
      let scheduleOn := cand.get ⟨i, by omega⟩
      addPodsLoop rc cand (i + 1) remaining
        ⟨batch.1.startNodes, batch.1.nodes ++ [scheduleOn],
          batch.1.ops ++ scheduleNoAudit rc scheduleOn⟩
        batch.2 (visited ++ [scheduleOn]) alerts

/-- `addPods`: schedule `ReplicasDesired - len(current)` pods onto the
sorted candidates `eligible` minus `current`, batching every 5. -/
def addPods (rc : RC) (current eligible : List String) : PassResult :=
  let cand := possibleSorted current eligible
  let toSchedule := (rc.replicasDesired - (current.length : Int)).toNat
  addPodsLoop rc cand 0 toSchedule (newAuditingTransaction current) [] [] 0

/-- The loop of `removePods`: pop from `preferred` (current minus
eligible) until it is empty, then from `rest` (current intersect
eligible), unscheduling each popped node, batching every 5; when both are
exhausted before the loop ends, commit pending operations and fail.  The
pop order of Go's `PopAny` over a set is arbitrary; it is modelled as
popping the head of the sorted list. -/
def removePodsLoop (rc : RC) :
    Nat → Nat → List String → List String → AuditTxn → List (List Op) →
      List String → PassResult
  | _, 0, _, _, txn, committed, visited =>
    ⟨committed ++ [commitAudit txn], visited, 0, none⟩
  | i, remaining + 1, preferred, rest, txn, committed, visited =>
    let batch :=
      if i % 5 == 0 && decide (0 < i) then
        (newAuditingTransaction txn.nodes, committed ++ [commitAudit txn])
      else
        (txn, committed)
    match preferred, rest with
    | [], [] =>
      ⟨batch.2 ++ [commitAudit batch.1], visited, 0,
        some "Unable to unschedule enough nodes to meet replicas desired"⟩
    | unscheduleFrom :: preferred', rest' =>
      removePodsLoop rc (i + 1) remaining preferred' rest'
        ⟨batch.1.startNodes, batch.1.nodes.erase unscheduleFrom,
          batch.1.ops ++ unscheduleOps rc unscheduleFrom⟩
        batch.2 (visited ++ [unscheduleFrom])
    | [], unscheduleFrom :: rest' =>
      removePodsLoop rc (i + 1) remaining [] rest'
        ⟨batch.1.startNodes, batch.1.nodes.erase unscheduleFrom,
          batch.1.ops ++ unscheduleOps rc unscheduleFrom⟩
        batch.2 (visited ++ [unscheduleFrom])

/-- `removePods`: unschedule `len(current) - ReplicasDesired` pods,
preferring nodes of `current` that are no longer eligible. -/
def removePods (rc : RC) (current eligible : List String) : PassResult :=
  let preferred := sortNodes (current.filter (fun n => ¬ (n ∈ eligible)))
  let rest :=
    (sortNodes current).filter
      (fun n => ¬ (n ∈ current.filter (fun m => ¬ (m ∈ eligible))))
  let toUnschedule := ((current.length : Int) - rc.replicasDesired).toNat
  removePodsLoop rc 0 toUnschedule preferred rest
    (newAuditingTransaction current) [] []

/-- Whether `ensureConsistency` rewrites the intent record of `node`: the
stored intent is absent, or its manifest SHA differs from the RC's current
manifest SHA.  (Reads are modelled as error-free; a store transport error
aborts the pass and is outside these claims.) -/
def needsWrite (rc : RC) (store : String → Option Manifest) (node : String) : Bool :=
  match store node with
  | none => true
  | some intent => ¬ (intent.sha = rc.manifest.sha)

/-- The loop of `ensureConsistency` over the current placements, `i`
counting placements examined: batch-commit every 5 placements, and for
each placement whose intent is absent or stale append the operations of
`scheduleNoAudit` (a label write and an intent write) to the open plain
transaction. -/
def ensureConsistencyLoop (rc : RC) (store : String → Option Manifest) :
    List String → Nat → List Op → List (List Op) → List (List Op)
  | [], _, pending, committed => committed ++ [pending]
  | node :: restPods, i, pending, committed =>
    let batch :=
      if i % 5 == 0 && decide (0 < i) then
        (([] : List Op), committed ++ [pending])
      else
        (pending, committed)
    let pending' :=
      if needsWrite rc store node then batch.1 ++ scheduleNoAudit rc node
      else batch.1
    ensureConsistencyLoop rc store restPods (i + 1) pending' batch.2

/-- `ensureConsistency`: compare each current placement's stored intent
manifest SHA with the RC's current manifest SHA and rewrite stale or
absent intents via `scheduleNoAudit`, batching every 5 placements.
Returns the committed transactions in order. -/
def ensureConsistency (rc : RC) (store : String → Option Manifest)
    (current : List String) : List (List Op) :=
  ensureConsistencyLoop rc store current 0 [] []

/-- `checkForIneligible`: the current nodes that no longer appear in the
eligible list. -/
def checkForIneligible (current eligible : List String) : List String :=
  current.filter (fun n => ¬ (n ∈ eligible))

/-- The `rcstatus.NodeTransfer` status record `{old_node, new_node}`. -/
structure NodeTransfer where
  oldNode : String
  newNode : String
deriving DecidableEq, Repr

/-- Result of the node-transfer engine: the chosen replacement node, the
error returned, alerts sent, node-transfer status records written, and
transactions committed. -/
structure TransferResult where
  newNode : Option String
  err : Option String
  alerts : Nat
  statusWrites : List NodeTransfer
  committed : List (List Op)
deriving DecidableEq, Repr

/-- `updateAllocations`: deallocate the first ineligible node, allocate one
replacement (`allocated` is the scheduler's answer), write the
`NodeTransfer` status record with a compare-and-set transaction, and
return the replacement node.  On allocation failure, alert and fail. -/
def updateAllocations (rc : RC) (ineligible : List String)
    (allocated : List String) : TransferResult :=
  match ineligible with
  | [] => ⟨none, some "Need at least one ineligible node to transfer from, had 0", 0, [], []⟩
  | oldNode :: _ =>
    match allocated with
    | [] => ⟨none, some "Unable to allocate nodes over grpc", 1, [], []⟩
    | newNode :: _ =>
      ⟨some newNode, none, 0, [⟨oldNode, newNode⟩],
        [[Op.casStatus rc.id oldNode newNode]]⟩

/-- `scheduleWithoutLabel`: write the intent record for the new node in a
single committed transaction, with no pod-label write, so that
`CurrentPods()` does not count the replacement yet. -/
def scheduleWithoutLabel (rc : RC) (newNode : String) : List (List Op) :=
  [[Op.setPod newNode rc.manifest]]

/-- `updateAllocationsAndReschedule`: if the RC's allocation strategy is
not cattle, alert and return, where the error returned is the value the
alerter's `Alert` call returned (this mirrors the source, which writes
`return nil, err` with `err` holding the alert delivery error —
`alerterOk = true` models a delivered alert, so the returned error is then
nil); otherwise allocate a replacement and schedule it without a label. -/
def updateAllocationsAndReschedule (rc : RC) (ineligible : List String)
    (alerterOk : Bool) (allocated : List String) : TransferResult :=
  if rc.allocationStrategy ≠ Strategy.cattle then
    { newNode := none,
      err := if alerterOk then none else some "Unable to send alert",
      alerts := 1,
      statusWrites := [],
      committed := [] }
  else
    let alloc := updateAllocations rc ineligible allocated
    match alloc.newNode with
    | none => alloc
    | some newNode =>
      { alloc with committed := alloc.committed ++ scheduleWithoutLabel rc newNode }

/-- `transferNodes`: when a node transfer is already recorded in the RC's
status, do nothing; otherwise run `updateAllocationsAndReschedule`.
`status` is the stored `NodeTransfer` record, if any. -/
def transferNodes (rc : RC) (ineligible : List String)
    (status : Option NodeTransfer) (alerterOk : Bool)
    (allocated : List String) : TransferResult :=
  if status.isSome then
    ⟨none, none, 0, [], []⟩
  else
    updateAllocationsAndReschedule rc ineligible alerterOk allocated

/-- Externally observable effects of one `meetDesires` pass: reads of the
current placement and of eligibility, store commits, intent reads, status
reads, status writes, alerts. -/
inductive Effect where
  | currentPodsRead
  | eligibleNodesRead
  | storeCommit (ops : List Op)
  | intentRead (node : String)
  | statusRead
  | statusWrite (t : NodeTransfer)
  | alertSent
deriving DecidableEq, Repr

/-- The environment one `meetDesires` pass runs against: the answers of
the label store, the scheduler, the intent store, the status store and the
alerter. -/
structure Env where
  current : List String
  currentAfterChange : List String
  eligible : List String
  intentStore : String → Option Manifest
  status : Option NodeTransfer
  alerterOk : Bool
  allocated : List String

/-- Store commits of a list of committed transactions, skipping empty
buffers (`Commit` with zero operations never contacts the store). -/
def commitEffects (batches : List (List Op)) : List Effect :=
  (batches.filter (fun b => b ≠ [])).map Effect.storeCommit

/-- The tail of a `meetDesires` pass after the add/remove diff: the
ineligible-node check with the transfer-engine hand-off, followed by
`ensureConsistency`. -/
def meetDesiresTail (rc : RC) (env : Env) (current : List String)
    (effects : List Effect) :
    Option String × List Effect × Option NodeTransfer :=
  let ineligible := checkForIneligible current env.eligible
  let transfer :=
    if ineligible ≠ [] then
      some (transferNodes rc ineligible env.status env.alerterOk env.allocated)
    else
      none
  let effects := effects ++
    (transfer.map (fun t =>
      [Effect.statusRead] ++ List.replicate t.alerts Effect.alertSent ++
        t.statusWrites.map Effect.statusWrite ++ commitEffects t.committed)).getD []
  let statusAfter :=
    match transfer with
    | some t => (t.statusWrites.getLast?).orElse (fun _ => env.status)
    | none => env.status
  match transfer with
  | some t =>
    match t.err with
    | some e => (some e, effects, statusAfter)
    | none =>
      let batches := ensureConsistency rc env.intentStore current
      (none, effects ++ current.map Effect.intentRead ++ commitEffects batches,
        statusAfter)
  | none =>
    let batches := ensureConsistency rc env.intentStore current
    (none, effects ++ current.map Effect.intentRead ++ commitEffects batches,
      statusAfter)

/-- `finalizeCompleteTransfer`: one audited transaction that adds the RC's
pod label on the new node, unschedules the old node, and commits. -/
def finalizeCompleteTransfer (rc : RC) (current : List String)
    (newNode oldNode : String) : List (List Op) :=
  let txn := newAuditingTransaction current
  let txn : AuditTxn :=
    ⟨txn.startNodes, txn.nodes ++ [newNode],
      txn.ops ++
        [Op.setLabels (MakePodLabelKey newNode rc.manifest.id) (computePodLabels rc)]⟩
  let txn : AuditTxn :=
    ⟨txn.startNodes, txn.nodes.erase oldNode, txn.ops ++ unscheduleOps rc oldNode⟩
  [commitAudit txn]

/-- `meetDesires`: one reconciliation pass.  When the RC is disabled it
returns nil immediately — the source body of the disabled branch is only
comments, so nothing is read, written, alerted or cancelled.  Otherwise it
reads current and eligible, adds or removes pods as the diff demands,
re-reads current if it changed, hands any ineligible current nodes to the
transfer engine, and repairs consistency.  Returns the error, the effect
trace, and the node-transfer status after the pass. -/
def meetDesires (rc : RC) (env : Env) :
    Option String × List Effect × Option NodeTransfer :=
  if rc.disabled then
    (none, [], env.status)
  else
    let current := env.current
    let diff :=
      if rc.replicasDesired > (current.length : Int) then
        some (addPods rc current env.eligible)
      else if (current.length : Int) > rc.replicasDesired then
        some (removePods rc current env.eligible)
      else
        none
    let effects := [Effect.currentPodsRead, Effect.eligibleNodesRead] ++
      (diff.map (fun r => commitEffects r.committed)).getD [] ++
      List.replicate ((diff.map (·.alerts)).getD 0) Effect.alertSent
    match diff with
    | some r =>
      match r.err with
      | some e => (some e, effects, env.status)
      | none =>
        let current := env.currentAfterChange
        let effects := effects ++ [Effect.currentPodsRead]
        meetDesiresTail rc env current effects
    | none => meetDesiresTail rc env current effects

/-! ## Helper lemmas -/

theorem lexLe_refl : ∀ l : List Char, lexLe l l = true
  | [] => rfl
  | a :: as => by
    rw [lexLe, if_neg (lt_irrefl a), if_neg (lt_irrefl a)]
    exact lexLe_refl as

theorem lexLe_total : ∀ l1 l2 : List Char, lexLe l1 l2 = true ∨ lexLe l2 l1 = true
  | [], _ => Or.inl rfl
  | _ :: _, [] => Or.inr rfl
  | a :: as, b :: bs => by
    rw [lexLe, lexLe]
    rcases lt_trichotomy a b with h | h | h
    · left; rw [if_pos h]
    · subst h
      simp only [lt_irrefl, if_false]
      exact lexLe_total as bs
    · right; rw [if_pos h]

theorem lexLe_trans : ∀ l1 l2 l3 : List Char,
    lexLe l1 l2 = true → lexLe l2 l3 = true → lexLe l1 l3 = true
  | [], _, _, _, _ => rfl
  | _ :: _, [], _, h12, _ => by simp [lexLe] at h12
  | _ :: _, _ :: _, [], _, h23 => by simp [lexLe] at h23
  | a :: as, b :: bs, c :: cs, h12, h23 => by
    rw [lexLe] at h12 h23 ⊢
    by_cases hab : a < b
    · by_cases hbc : b < c
      · rw [if_pos (lt_trans hab hbc)]
      · rw [if_neg hbc] at h23
        by_cases hcb : c < b
        · rw [if_pos hcb] at h23
          exact absurd h23 (by simp)
        · have hbceq : b = c := le_antisymm (not_lt.mp hcb) (not_lt.mp hbc)
          subst hbceq
          rw [if_pos hab]
    · rw [if_neg hab] at h12
      by_cases hba : b < a
      · rw [if_pos hba] at h12
        exact absurd h12 (by simp)
      · have habeq : a = b := le_antisymm (not_lt.mp hba) (not_lt.mp hab)
        subst habeq
        rw [if_neg (lt_irrefl a)] at h12
        by_cases hac : a < c
        · rw [if_pos hac]
        · rw [if_neg hac] at h23 ⊢
          by_cases hca : c < a
          · rw [if_pos hca] at h23
            exact absurd h23 (by simp)
          · rw [if_neg hca] at h23 ⊢
            exact lexLe_trans as bs cs h12 h23

theorem lexLe_antisymm : ∀ l1 l2 : List Char,
    lexLe l1 l2 = true → lexLe l2 l1 = true → l1 = l2
  | [], [], _, _ => rfl
  | [], _ :: _, _, h21 => by simp [lexLe] at h21
  | _ :: _, [], h12, _ => by simp [lexLe] at h12
  | a :: as, b :: bs, h12, h21 => by
    rw [lexLe] at h12 h21
    by_cases hab : a < b
    · rw [if_neg (lt_asymm hab), if_pos hab] at h21
      exact absurd h21 (by simp)
    · rw [if_neg hab] at h12
      by_cases hba : b < a
      · rw [if_pos hba] at h12
        exact absurd h12 (by simp)
      · have habeq : a = b := le_antisymm (not_lt.mp hba) (not_lt.mp hab)
        subst habeq
        rw [if_neg (lt_irrefl a)] at h12
        rw [if_neg (lt_irrefl a), if_neg (lt_irrefl a)] at h21
        rw [lexLe_antisymm as bs h12 h21]

instance : IsTotal String nodeLe := ⟨fun a b => lexLe_total a.data b.data⟩

instance : IsTrans String nodeLe :=
  ⟨fun a b c hab hbc => lexLe_trans a.data b.data c.data hab hbc⟩

instance : IsRefl String nodeLe := ⟨fun a => lexLe_refl a.data⟩

theorem nodeLe_antisymm {a b : String} (hab : nodeLe a b) (hba : nodeLe b a) :
    a = b := by
  cases a
  cases b
  exact congrArg String.mk (lexLe_antisymm _ _ hab hba)

theorem sorted_sortNodes (l : List String) : List.Sorted nodeLe (sortNodes l) :=
  List.sorted_insertionSort nodeLe l.dedup

theorem perm_sortNodes (l : List String) : List.Perm (sortNodes l) l.dedup :=
  List.perm_insertionSort nodeLe l.dedup

theorem nodup_sortNodes (l : List String) : (sortNodes l).Nodup :=
  ((perm_sortNodes l).nodup_iff).mpr l.nodup_dedup

theorem mem_sortNodes (l : List String) (n : String) :
    n ∈ sortNodes l ↔ n ∈ l := by
  rw [(perm_sortNodes l).mem_iff, List.mem_dedup]


theorem sorted_filter_rank (x : String) :
    ∀ l : List String, List.Sorted nodeLe l → l.Nodup →
      ∀ (i : Nat) (hi : i < l.length), l.get ⟨i, hi⟩ = x →
        (l.filter (fun m => decide (nodeLe m x ∧ m ≠ x))).length = i := by
  intro l
  induction l with
  | nil =>
    intro _ _ i hi
    exact absurd hi (by simp)
  | cons a t ih =>
    intro hs hn i hi hx
    rcases List.sorted_cons.mp hs with ⟨ha, hst⟩
    rcases List.nodup_cons.mp hn with ⟨hat, hnt⟩
    cases i with
    | zero =>
      have hax : a = x := hx
      subst hax
      have hfa : (decide (nodeLe a a ∧ a ≠ a)) = false := by simp
      rw [List.filter_cons, hfa]
      simp only [Bool.false_eq_true, if_false]
      have hft : t.filter (fun m => decide (nodeLe m a ∧ m ≠ a)) = [] := by
        rw [List.filter_eq_nil_iff]
        intro m hm
        simp only [decide_eq_true_eq, not_and]
        intro hma hne
        exact hne (nodeLe_antisymm hma (ha m hm))
      rw [hft]
      rfl
    | succ j =>
      have hjt : j < t.length := by
        have := hi
        simp at this
        omega
      have hxt : t.get ⟨j, hjt⟩ = x := hx
      have hxmem : x ∈ t := by
        rw [← hxt]
        exact t.get_mem j hjt
      have hfa : (decide (nodeLe a x ∧ a ≠ x)) = true := by
        simp only [decide_eq_true_eq]
        constructor
        · exact ha x hxmem
        · intro heq
          exact hat (heq ▸ hxmem)
      rw [List.filter_cons, hfa]
      simp only [if_true]
      rw [List.length_cons, ih hst hnt j hjt hxt]

theorem ensureConsistencyLoop_flatten (rc : RC) (store : String → Option Manifest) :
    ∀ (l : List String) (i : Nat) (pending : List Op) (committed : List (List Op)),
      (ensureConsistencyLoop rc store l i pending committed).flatten =
        committed.flatten ++ pending ++
          l.flatMap (fun n =>
            if needsWrite rc store n then scheduleNoAudit rc n else []) := by
  intro l
  induction l with
  | nil =>
    intro i pending committed
    simp [ensureConsistencyLoop]
  | cons n rest ih =>
    intro i pending committed
    rw [ensureConsistencyLoop]
    by_cases hb : (i % 5 == 0 && decide (0 < i)) = true
    · rw [if_pos hb]
      by_cases hw : needsWrite rc store n = true
      · rw [if_pos hw, ih]
        simp [hw, List.append_assoc]
      · rw [if_neg hw, ih]
        simp [hw, List.append_assoc]
    · rw [if_neg hb]
      by_cases hw : needsWrite rc store n = true
      · rw [if_pos hw, ih]
        simp [hw, List.append_assoc]
      · rw [if_neg hw, ih]
        simp [hw, List.append_assoc]

theorem addPodsLoop_visited (rc : RC) (cand : List String) :
    ∀ (remaining i : Nat) (txn : AuditTxn) (committed : List (List Op))
      (visited : List String) (alerts : Nat),
      (addPodsLoop rc cand i remaining txn committed visited alerts).visited =
        visited ++ (cand.drop i).take remaining := by
  intro remaining
  induction remaining with
  | zero =>
    intro i txn committed visited alerts
    rw [addPodsLoop]
    simp
  | succ r ih =>
    intro i txn committed visited alerts
    rw [addPodsLoop]
    simp only []
    by_cases hcap : cand.length < i + 1
    · rw [dif_pos hcap]
      have hnil : cand.drop i = [] := by
        rw [List.drop_eq_nil_iff]
        omega
      simp [hnil]
    · rw [dif_neg hcap]
      rw [ih]
      have hlt : i < cand.length := by omega
      have hdt : List.take (r + 1) (List.drop i cand) =
          cand[i] :: List.take r (List.drop (i + 1) cand) := by
        rw [List.drop_eq_getElem_cons hlt, List.take_succ_cons]
      rw [hdt]
      simp

theorem addPodsLoop_errIsSome (rc : RC) (cand : List String) :
    ∀ (remaining i : Nat) (txn : AuditTxn) (committed : List (List Op))
      (visited : List String) (alerts : Nat), i ≤ cand.length →
      (addPodsLoop rc cand i remaining txn committed visited alerts).err.isSome =
        decide (cand.length < i + remaining) := by
  intro remaining
  induction remaining with
  | zero =>
    intro i txn committed visited alerts hi
    rw [addPodsLoop]
    simpa using Nat.not_lt.mpr hi
  | succ r ih =>
    intro i txn committed visited alerts hi
    rw [addPodsLoop]
    simp only []
    by_cases hcap : cand.length < i + 1
    · rw [dif_pos hcap]
      have : cand.length < i + (r + 1) := by omega
      simpa using this
    · rw [dif_neg hcap]
      rw [ih _ _ _ _ _ (by omega)]
      have : i + 1 + r = i + (r + 1) := by omega
      rw [this]

theorem addPodsLoop_alerts (rc : RC) (cand : List String) :
    ∀ (remaining i : Nat) (txn : AuditTxn) (committed : List (List Op))
      (visited : List String) (alerts : Nat), i ≤ cand.length →
      (addPodsLoop rc cand i remaining txn committed visited alerts).alerts =
        alerts + (if cand.length < i + remaining then 1 else 0) := by
  intro remaining
  induction remaining with
  | zero =>
    intro i txn committed visited alerts hi
    rw [addPodsLoop]
    simp [Nat.not_lt.mpr hi]
  | succ r ih =>
    intro i txn committed visited alerts hi
    rw [addPodsLoop]
    simp only []
    by_cases hcap : cand.length < i + 1
    · rw [dif_pos hcap]
      have : cand.length < i + (r + 1) := by omega
      simp [this]
    · rw [dif_neg hcap]
      rw [ih _ _ _ _ _ (by omega)]
      have : i + 1 + r = i + (r + 1) := by omega
      rw [this]

theorem filter_scheduleNoAudit (rc : RC) (n : String) :
    (scheduleNoAudit rc n).filter isSchedulingOp = scheduleNoAudit rc n := by
  simp [scheduleNoAudit, isSchedulingOp]

theorem filter_commitAudit (txn : AuditTxn) :
    (commitAudit txn).filter isSchedulingOp = txn.ops.filter isSchedulingOp := by
  simp [commitAudit, isSchedulingOp, List.filter_append]

theorem addPodsLoop_schedOps (rc : RC) (cand : List String) :
    ∀ (remaining i : Nat) (txn : AuditTxn) (committed : List (List Op))
      (visited : List String) (alerts : Nat),
      ((addPodsLoop rc cand i remaining txn committed visited
          alerts).committed.flatten).filter isSchedulingOp =
        (committed.flatten).filter isSchedulingOp ++ txn.ops.filter isSchedulingOp ++
          ((cand.drop i).take remaining).flatMap (scheduleNoAudit rc) := by
  intro remaining
  induction remaining with
  | zero =>
    intro i txn committed visited alerts
    rw [addPodsLoop]
    simp [List.filter_append, filter_commitAudit]
  | succ r ih =>
    intro i txn committed visited alerts
    rw [addPodsLoop]
    simp only []
    by_cases hcap : cand.length < i + 1
    · rw [dif_pos hcap]
      have hnil : cand.drop i = [] := by
        rw [List.drop_eq_nil_iff]
        omega
      by_cases hb : (i % 5 == 0 && decide (0 < i)) = true
      · rw [if_pos hb]
        simp [hnil, List.filter_append, filter_commitAudit, commitAudit,
          newAuditingTransaction, isSchedulingOp]
      · rw [if_neg hb]
        simp [hnil, List.filter_append, filter_commitAudit]
    · rw [dif_neg hcap]
      rw [ih]
      have hlt : i < cand.length := by omega
      have hdt : List.take (r + 1) (List.drop i cand) =
          cand[i] :: List.take r (List.drop (i + 1) cand) := by
        rw [List.drop_eq_getElem_cons hlt, List.take_succ_cons]
      rw [hdt]
      by_cases hb : (i % 5 == 0 && decide (0 < i)) = true
      · rw [if_pos hb]
        simp [List.filter_append, filter_commitAudit, filter_scheduleNoAudit,
          newAuditingTransaction, commitAudit, isSchedulingOp, List.append_assoc]
      · rw [if_neg hb]
        simp [List.filter_append, filter_scheduleNoAudit, List.append_assoc]

theorem removePodsLoop_visited (rc : RC) :
    ∀ (remaining i : Nat) (preferred rest : List String) (txn : AuditTxn)
      (committed : List (List Op)) (visited : List String),
      (removePodsLoop rc i remaining preferred rest txn committed visited).visited =
        visited ++ (preferred ++ rest).take remaining := by
  intro remaining
  induction remaining with
  | zero =>
    intro i preferred rest txn committed visited
    rw [removePodsLoop]
    simp
  | succ r ih =>
    intro i preferred rest txn committed visited
    rcases preferred with _ | ⟨n, preferred2⟩
    · rcases rest with _ | ⟨n, rest2⟩
      · rw [removePodsLoop]
        simp
      · rw [removePodsLoop]
        rw [ih]
        simp
    · rw [removePodsLoop]
      rw [ih]
      simp

theorem mapGet_mapSet_self (m : List (String × String)) (k v : String) :
    mapGet (mapSet m k v) k = some v := by
  rw [mapGet, mapSet, List.find?_append]
  have h1 : (m.filter (fun kv => kv.1 ≠ k)).find? (fun kv => kv.1 = k) = none := by
    rw [List.find?_eq_none]
    intro kv hkv
    have h2 := (List.mem_filter.mp hkv).2
    simp at h2 ⊢
    exact h2
  rw [h1]
  simp

theorem mapGet_mapSet_ne (m : List (String × String)) (k v k2 : String)
    (h : k2 ≠ k) : mapGet (mapSet m k v) k2 = mapGet m k2 := by
  rw [mapGet, mapSet, List.find?_append]
  have h2 : List.find? (fun kv => kv.1 = k2) [(k, v)] = none := by
    simp
    exact fun heq => absurd heq.symm h
  rw [h2]
  have h3 : (m.filter (fun kv => kv.1 ≠ k)).find? (fun kv => kv.1 = k2) =
      m.find? (fun kv => kv.1 = k2) := by
    induction m with
    | nil => rfl
    | cons a t iht =>
      rw [List.filter_cons]
      by_cases hak : a.1 = k
      · have hnk : (decide (a.1 ≠ k)) = false := by simp [hak]
        rw [hnk]
        simp only [Bool.false_eq_true, if_false]
        rw [iht, List.find?_cons]
        have hpk : (decide (a.1 = k2)) = false := by
          simp [hak]
          exact fun heq => absurd heq.symm h
        rw [hpk]
      · have hnk : (decide (a.1 ≠ k)) = true := by simp [hak]
        rw [hnk]
        simp only [if_true]
        rw [List.find?_cons, List.find?_cons]
        by_cases hp : (decide (a.1 = k2)) = true
        · rw [hp]
        · rw [Bool.not_eq_true] at hp
          rw [hp, iht]
  rw [h3, Option.or_none]
  rfl

theorem computePodLabels_reserved (rc : RC) :
    mapGet (computePodLabels rc) PodIDLabel = some rc.manifest.id ∧
    mapGet (computePodLabels rc) RCIDLabel = some rc.id := by
  constructor
  · rw [computePodLabels]
    rw [mapGet_mapSet_ne _ _ _ _ (by decide), mapGet_mapSet_self]
  · rw [computePodLabels]
    rw [mapGet_mapSet_self]

theorem set_length_concat {α : Type} (l : List α) (t t' : α) :
    (l ++ [t]).set l.length t' = l ++ [t'] := by
  induction l with
  | nil => rfl
  | cons a l ih => simpa using ih

theorem getD_concat_length {α : Type} (l : List α) (t d : α) :
    (l ++ [t]).getD l.length d = t := by
  simp [List.getD, List.getElem?_concat_length]

theorem getD_append_lt {α : Type} (l l' : List α) (n : Nat) (d : α)
    (h : n < l.length) : (l ++ l').getD n d = l.getD n d := by
  simp [List.getD, List.getElem?_append_left h]

namespace transaction

theorem addTimes_fresh (hs : List Txn) (ops : List KVTxnOp) (op : KVTxnOp)
    (n : Nat) (hn : ops.length + n ≤ 64) :
    addTimes ⟨hs ++ [⟨ops, false⟩]⟩ ⟨hs.length⟩ op n =
      .ok ⟨hs ++ [⟨ops ++ List.replicate n op, false⟩]⟩ := by
  induction n with
  | zero => simp [addTimes]
  | succ n ih =>
    rw [addTimes, ih (by omega)]
    have hlt : ¬ (64 ≤ (ops ++ List.replicate n op).length) := by
      simp; omega
    simp only [Add, List.getElem?_concat_length, hlt]
    rw [set_length_concat]
    simp [List.replicate_succ', List.append_assoc]

theorem retriesLoop_calls_pos (txner : Nat → TxnOutcome) :
    ∀ fuel i, i < (retriesLoop txner i fuel).1 := by
  intro fuel
  induction fuel with
  | zero =>
    intro i
    rw [retriesLoop]
    rcases h : txner i with _ | _ | _ <;> simp [h]
  | succ fuel ih =>
    intro i
    rw [retriesLoop]
    rcases h : txner i with _ | _ | _ <;> simp [h]
    exact Nat.lt_of_succ_lt (ih (i + 1))

theorem retriesLoop_calls_le (txner : Nat → TxnOutcome) :
    ∀ fuel i, (retriesLoop txner i fuel).1 ≤ i + fuel + 1 := by
  intro fuel
  induction fuel with
  | zero =>
    intro i
    rw [retriesLoop]
    rcases h : txner i with _ | _ | _ <;> simp [h]
  | succ fuel ih =>
    intro i
    rw [retriesLoop]
    rcases h : txner i with _ | _ | _ <;> simp [h] <;> try omega
    calc (retriesLoop txner (i + 1) fuel).1 ≤ i + 1 + fuel + 1 := ih (i + 1)
      _ = i + (fuel + 1) + 1 := by omega

theorem retriesLoop_transport_before (txner : Nat → TxnOutcome) :
    ∀ fuel i j, i ≤ j → j + 1 < (retriesLoop txner i fuel).1 →
      txner j = .transportErr := by
  intro fuel
  induction fuel with
  | zero =>
    intro i j hij h
    rw [retriesLoop] at h
    rcases hx : txner i with _ | _ | _ <;> rw [hx] at h <;> simp at h <;> omega
  | succ fuel ih =>
    intro i j hij h
    rw [retriesLoop] at h
    rcases hx : txner i with _ | _ | _ <;> rw [hx] at h
    · simp at h; omega
    · simp at h; omega
    · rcases Nat.eq_or_lt_of_le hij with rfl | hij'
      · exact hx
      · exact ih (i + 1) j hij' h

theorem retriesLoop_all_transport (txner : Nat → TxnOutcome)
    (hall : ∀ j, txner j = .transportErr) :
    ∀ fuel i, retriesLoop txner i fuel = (i + fuel + 1, false, true) := by
  intro fuel
  induction fuel with
  | zero => intro i; rw [retriesLoop, hall i]
  | succ fuel ih =>
    intro i
    rw [retriesLoop, hall i, ih (i + 1)]
    have h2 : i + 1 + fuel = i + (fuel + 1) := by omega
    rw [h2]

theorem set_append_lt {α : Type} (l l' : List α) (n : Nat) (a : α)
    (h : n < l.length) : (l ++ l').set n a = l.set n a ++ l' := by
  rw [List.set_append]
  simp [Nat.not_le.mpr h]

theorem getD_set_self {α : Type} (l : List α) (n : Nat) (a d : α)
    (h : n < l.length) : (l.set n a).getD n d = a := by
  simp [List.getD, List.getElem?_set_self', h]

theorem opCount_concat_self (cells : List Txn) (t : Txn) :
    opCount ⟨cells ++ [t]⟩ ⟨cells.length⟩ = t.kvOps.length := by
  simp [opCount, getD_concat_length]

theorem opCount_concat_lt (cells : List Txn) (t : Txn) (c : Ctx)
    (hc : c.cell < cells.length) :
    opCount ⟨cells ++ [t]⟩ c = opCount ⟨cells⟩ c := by
  simp [opCount, List.getD_eq_getElem?_getD, List.getElem?_append_left hc]

theorem Add_ok_iff (h : Heap) (c : Ctx) (op : KVTxnOp) (t : Txn)
    (ht : h.cells[c.cell]? = some t) (h' : Heap) :
    Add h c op = .ok h' ↔
      t.committed = false ∧ t.kvOps.length < 64 ∧
        h' = ⟨h.cells.set c.cell ⟨t.kvOps ++ [op], t.committed⟩⟩ := by
  have hstep : Add h c op =
      (if t.committed = true then .error .alreadyCommitted
       else if 64 ≤ t.kvOps.length then .error .tooManyOperations
       else .ok ⟨h.cells.set c.cell ⟨t.kvOps ++ [op], t.committed⟩⟩) := by
    simp only [Add, ht]
  rw [hstep]
  split_ifs with h1 h2
  · simp [h1]
  · simp
    intro hfalse
    omega
  · simp only [Bool.not_eq_true] at h1
    simp [h1, Nat.not_le.mp h2, eq_comm]

end transaction

/-! ## Claims -/

/-- **C6**: starting from any freshly created empty transaction, the first
64 calls to `Add` each succeed (the buffer after `n` adds holds exactly
those `n` operations), and the next `Add` call fails with the
`TooManyOperations` error. -/
theorem add_succeeds_64_times_then_fails (h : transaction.Heap) (op : KVTxnOp) :
    (∀ n, n ≤ 64 →
      transaction.addTimes (transaction.New h none).1 (transaction.New h none).2 op n =
        .ok ⟨h.cells ++ [⟨List.replicate n op, false⟩]⟩) ∧
    transaction.addTimes (transaction.New h none).1 (transaction.New h none).2 op 65 =
      .error .tooManyOperations := by
  have hfresh : ∀ n, n ≤ 64 →
      transaction.addTimes (transaction.New h none).1 (transaction.New h none).2 op n =
        .ok ⟨h.cells ++ [⟨List.replicate n op, false⟩]⟩ := by
    intro n hn
    simpa using transaction.addTimes_fresh h.cells [] op n (by simpa using hn)
  refine ⟨hfresh, ?_⟩
  show transaction.addTimes _ _ op (64 + 1) = _
  rw [transaction.addTimes, hfresh 64 (by omega)]
  show transaction.Add _ ⟨h.cells.length⟩ op = _
  simp [transaction.Add, List.getElem?_concat_length]

/-- **C6** witness: on the empty heap, 64 adds succeed and the 65th fails. -/
theorem add_succeeds_64_times_then_fails_witness :
    transaction.addTimes (transaction.New ⟨[]⟩ none).1 (transaction.New ⟨[]⟩ none).2
        default 64 = .ok ⟨[⟨List.replicate 64 default, false⟩]⟩ ∧
    transaction.addTimes (transaction.New ⟨[]⟩ none).1 (transaction.New ⟨[]⟩ none).2
        default 65 = .error .tooManyOperations :=
  ⟨(add_succeeds_64_times_then_fails ⟨[]⟩ default).1 64 (by omega),
    (add_succeeds_64_times_then_fails ⟨[]⟩ default).2⟩

/-- **C1** counterexample: replaying `TestContextInheritsOperations` —
a parent context with one operation, a context derived from it, and one
append through the derived context — leaves the parent observing 1
operation while the derived context observes 2, so the two observed counts
are not always equal and appends are not in lockstep. -/
theorem derived_ctx_counts_diverge :
    transaction.New ⟨[]⟩ none = (⟨[⟨[], false⟩]⟩, ⟨0⟩) ∧
    transaction.Add ⟨[⟨[], false⟩]⟩ ⟨0⟩ default = .ok ⟨[⟨[default], false⟩]⟩ ∧
    transaction.New ⟨[⟨[default], false⟩]⟩ (some ⟨0⟩) =
      (⟨[⟨[default], false⟩, ⟨[default], false⟩]⟩, ⟨1⟩) ∧
    transaction.Add ⟨[⟨[default], false⟩, ⟨[default], false⟩]⟩ ⟨1⟩ default =
      .ok ⟨[⟨[default], false⟩, ⟨[default, default], false⟩]⟩ ∧
    transaction.opCount ⟨[⟨[default], false⟩, ⟨[default, default], false⟩]⟩ ⟨0⟩ = 1 ∧
    transaction.opCount ⟨[⟨[default], false⟩, ⟨[default, default], false⟩]⟩ ⟨1⟩ = 2 :=
  ⟨rfl, rfl, rfl, rfl, rfl, rfl⟩

/-- **C1** (amended): a context derived from a parent carrying a
transaction with `k` operations starts by observing the same `k`
operations, but the two buffers are separate copies from that point on: an
append through either context raises only that context's observed count
and leaves the other context's count unchanged. -/
theorem derived_ctx_inherits_copy (h : transaction.Heap) (c : transaction.Ctx)
    (op : KVTxnOp) (hc : c.cell < h.cells.length) :
    transaction.opCount (transaction.New h (some c)).1 (transaction.New h (some c)).2 =
      transaction.opCount h c ∧
    transaction.opCount (transaction.New h (some c)).1 c = transaction.opCount h c ∧
    (∀ h', transaction.Add (transaction.New h (some c)).1
        (transaction.New h (some c)).2 op = .ok h' →
      transaction.opCount h' (transaction.New h (some c)).2 =
        transaction.opCount h c + 1 ∧
      transaction.opCount h' c = transaction.opCount h c) ∧
    (∀ h', transaction.Add (transaction.New h (some c)).1 c op = .ok h' →
      transaction.opCount h' c = transaction.opCount h c + 1 ∧
      transaction.opCount h' (transaction.New h (some c)).2 =
        transaction.opCount h c) := by
  have hcell : h.cells[c.cell]? = some h.cells[c.cell] := List.getElem?_eq_getElem hc
  have hinh : h.cells.getD c.cell default = h.cells[c.cell] := by
    rw [List.getD_eq_getElem?_getD, hcell]
    rfl
  have hoc : transaction.opCount h c = h.cells[c.cell].kvOps.length := by
    rw [transaction.opCount, hinh]
  refine ⟨?_, ?_, ?_, ?_⟩
  · show transaction.opCount
        ⟨h.cells ++ [⟨(h.cells.getD c.cell default).kvOps, false⟩]⟩
        ⟨h.cells.length⟩ = _
    rw [transaction.opCount_concat_self, hinh, hoc]
  · show transaction.opCount
        ⟨h.cells ++ [⟨(h.cells.getD c.cell default).kvOps, false⟩]⟩ c = _
    rw [transaction.opCount_concat_lt _ _ _ hc]
  · intro h' hadd
    have hadd' : transaction.Add
        ⟨h.cells ++ [⟨(h.cells.getD c.cell default).kvOps, false⟩]⟩
        ⟨h.cells.length⟩ op = .ok h' := hadd
    rw [transaction.Add_ok_iff _ _ _ ⟨(h.cells.getD c.cell default).kvOps, false⟩
      (List.getElem?_concat_length _ _) h'] at hadd'
    obtain ⟨-, -, hh'⟩ := hadd'
    subst hh'
    rw [set_length_concat]
    constructor
    · show transaction.opCount _ ⟨h.cells.length⟩ = _
      rw [transaction.opCount_concat_self]
      simp [hinh, hoc, hcell]
    · show transaction.opCount _ c = _
      rw [transaction.opCount_concat_lt _ _ _ hc]
  · intro h' hadd
    have hadd' : transaction.Add
        ⟨h.cells ++ [⟨(h.cells.getD c.cell default).kvOps, false⟩]⟩ c op =
        .ok h' := hadd
    have htop : (h.cells ++
        [(⟨(h.cells.getD c.cell default).kvOps, false⟩ : transaction.Txn)])[c.cell]? =
        some h.cells[c.cell] := by
      rw [List.getElem?_append_left hc, hcell]
    rw [transaction.Add_ok_iff _ _ _ _ htop h'] at hadd'
    obtain ⟨-, -, hh'⟩ := hadd'
    subst hh'
    rw [transaction.set_append_lt _ _ _ _ hc]
    have hlen : c.cell <
        (h.cells.set c.cell
          ⟨h.cells[c.cell].kvOps ++ [op], h.cells[c.cell].committed⟩).length := by
      simpa using hc
    constructor
    · rw [transaction.opCount_concat_lt _ _ _ hlen]
      show transaction.opCount _ c = _
      rw [transaction.opCount, hoc]
      simp [List.getD_eq_getElem?_getD, List.getElem?_set_self', hc]
    · have hlen2 : (h.cells.set c.cell
          ⟨h.cells[c.cell].kvOps ++ [op], h.cells[c.cell].committed⟩).length =
          h.cells.length := by simp
      show transaction.opCount _ ⟨h.cells.length⟩ = _
      rw [← hlen2, transaction.opCount_concat_self, hinh, hoc]

/-- **C1** (amended) witness: a parent with one buffered operation, its
derived context after one further append through the derived context —
the derived context observes 2 operations, the parent still 1. -/
theorem derived_ctx_inherits_copy_witness :
    transaction.opCount ⟨[⟨[default], false⟩, ⟨[default, default], false⟩]⟩ ⟨1⟩ =
      transaction.opCount ⟨[⟨[default], false⟩]⟩ ⟨0⟩ + 1 ∧
    transaction.opCount ⟨[⟨[default], false⟩, ⟨[default, default], false⟩]⟩ ⟨0⟩ =
      transaction.opCount ⟨[⟨[default], false⟩]⟩ ⟨0⟩ :=
  (derived_ctx_inherits_copy ⟨[⟨[default], false⟩]⟩ ⟨0⟩ default (by decide)).2.2.1
    ⟨[⟨[default], false⟩, ⟨[default, default], false⟩]⟩ rfl

/-- **C5**: `CommitWithRetries` calls the store at least once, makes every
call but the last only after a transport error (so it never calls again
after `ok=true` nor after a rollback), makes at most one call beyond the
cancellation point, and when every call keeps failing with a transport
error it returns, once cancelled, `ok=false` with a non-nil error after
exactly one in-flight call past cancellation. -/
theorem commitWithRetries_spec (txner : Nat → transaction.TxnOutcome) (cancel : Nat) :
    1 ≤ (transaction.CommitWithRetries txner cancel).1 ∧
    (transaction.CommitWithRetries txner cancel).1 ≤ cancel + 1 ∧
    (∀ j, j + 1 < (transaction.CommitWithRetries txner cancel).1 →
      txner j = .transportErr) ∧
    ((∀ j, txner j = .transportErr) →
      transaction.CommitWithRetries txner cancel = (cancel + 1, false, true)) := by
  refine ⟨transaction.retriesLoop_calls_pos txner cancel 0, ?_, ?_, ?_⟩
  · simpa using transaction.retriesLoop_calls_le txner cancel 0
  · intro j hj
    exact transaction.retriesLoop_transport_before txner cancel 0 j (Nat.zero_le j) hj
  · intro hall
    simpa using transaction.retriesLoop_all_transport txner hall cancel 0

/-- **C5** witness: with a store that always fails with a transport error
and cancellation after 2 completed calls, the loop makes 3 calls and
returns `ok=false` with a non-nil error. -/
theorem commitWithRetries_spec_witness :
    transaction.CommitWithRetries (fun _ => .transportErr) 2 = (3, false, true) :=
  (commitWithRetries_spec (fun _ => .transportErr) 2).2.2.2 (fun _ => rfl)

/-- **C2** counterexample: with one current placement whose stored intent
is absent, `ensureConsistency` appends a pod-label write (the first
operation `scheduleNoAudit` emits), refuting the claim that it appends no
label operations for any node. -/
theorem ensureConsistency_appends_label_op :
    Op.setLabels (MakePodLabelKey "node1" "the-pod")
        (computePodLabels ⟨"rc-1", ⟨"the-pod", "sha-1"⟩, 1, false, [], .cattle⟩) ∈
      (ensureConsistency ⟨"rc-1", ⟨"the-pod", "sha-1"⟩, 1, false, [], .cattle⟩
        (fun _ => none) ["node1"]).flatten := by
  decide

/-- **C2** (amended): `ensureConsistency` appends a fresh intent write for
node `n` exactly when the stored intent manifest for `n` is absent or its
SHA differs from the RC's current manifest SHA — but it repairs via
`scheduleNoAudit`, so each such node also receives a pod-label write
alongside its intent write; its committed operations are exactly these
`scheduleNoAudit` pairs for the inconsistent nodes. -/
theorem ensureConsistency_ops (rc : RC) (store : String → Option Manifest)
    (current : List String) :
    (ensureConsistency rc store current).flatten =
      current.flatMap (fun n =>
        if needsWrite rc store n then scheduleNoAudit rc n else []) ∧
    (∀ n, Op.setPod n rc.manifest ∈ (ensureConsistency rc store current).flatten ↔
      (n ∈ current ∧ needsWrite rc store n = true)) ∧
    (∀ key lbls,
      Op.setLabels key lbls ∈ (ensureConsistency rc store current).flatten →
      ∃ n, n ∈ current ∧ needsWrite rc store n = true ∧
        key = MakePodLabelKey n rc.manifest.id ∧ lbls = computePodLabels rc) ∧
    (∀ n, n ∈ current → needsWrite rc store n = true →
      Op.setLabels (MakePodLabelKey n rc.manifest.id) (computePodLabels rc) ∈
        (ensureConsistency rc store current).flatten) := by
  have hflat : (ensureConsistency rc store current).flatten =
      current.flatMap (fun n =>
        if needsWrite rc store n then scheduleNoAudit rc n else []) := by
    rw [ensureConsistency, ensureConsistencyLoop_flatten]
    simp
  refine ⟨hflat, ?_, ?_, ?_⟩
  · intro n
    rw [hflat, List.mem_flatMap]
    constructor
    · rintro ⟨m, hm, hop⟩
      by_cases hw : needsWrite rc store m = true
      · rw [if_pos hw] at hop
        simp [scheduleNoAudit] at hop
        subst hop
        exact ⟨hm, hw⟩
      · rw [if_neg hw] at hop
        exact absurd hop (by simp)
    · rintro ⟨hn, hw⟩
      exact ⟨n, hn, by simp [hw, scheduleNoAudit]⟩
  · intro key lbls hmem
    rw [hflat, List.mem_flatMap] at hmem
    obtain ⟨m, hm, hop⟩ := hmem
    by_cases hw : needsWrite rc store m = true
    · rw [if_pos hw] at hop
      simp [scheduleNoAudit] at hop
      obtain ⟨hk, hl⟩ := hop
      exact ⟨m, hm, hw, hk, hl⟩
    · rw [if_neg hw] at hop
      exact absurd hop (by simp)
  · intro n hn hw
    rw [hflat, List.mem_flatMap]
    exact ⟨n, hn, by simp [hw, scheduleNoAudit]⟩

/-- **C2** (amended) witness: one absent intent ("node1") and one
consistent intent ("node2") — "node1" gets both the intent write and the
label write, "node2" gets neither. -/
theorem ensureConsistency_ops_witness :
    (Op.setPod "node1" ⟨"the-pod", "sha-1"⟩ ∈
      (ensureConsistency ⟨"rc-1", ⟨"the-pod", "sha-1"⟩, 1, false, [], .cattle⟩
        (fun n => if n = "node2" then some ⟨"the-pod", "sha-1"⟩ else none)
        ["node1", "node2"]).flatten) ∧
    ¬ (Op.setPod "node2" ⟨"the-pod", "sha-1"⟩ ∈
      (ensureConsistency ⟨"rc-1", ⟨"the-pod", "sha-1"⟩, 1, false, [], .cattle⟩
        (fun n => if n = "node2" then some ⟨"the-pod", "sha-1"⟩ else none)
        ["node1", "node2"]).flatten) :=
  ⟨((ensureConsistency_ops ⟨"rc-1", ⟨"the-pod", "sha-1"⟩, 1, false, [], .cattle⟩
      (fun n => if n = "node2" then some ⟨"the-pod", "sha-1"⟩ else none)
      ["node1", "node2"]).2.1 "node1").mpr ⟨by decide, by decide⟩,
   fun hmem =>
     absurd (((ensureConsistency_ops ⟨"rc-1", ⟨"the-pod", "sha-1"⟩, 1, false, [],
         .cattle⟩
       (fun n => if n = "node2" then some ⟨"the-pod", "sha-1"⟩ else none)
       ["node1", "node2"]).2.1 "node2").mp hmem).2 (by decide)⟩

/-- **C7**: within one `addPods` pass, the candidate set is exactly
eligible minus current; the scheduled nodes are the first `toSchedule`
entries of the sorted candidate list, in sorted hostname order, and the
`i`-th scheduling action targets the `i`-th smallest candidate hostname
(exactly `i` candidates are strictly smaller). -/
theorem addPods_sorted_schedule (rc : RC) (current eligible : List String) :
    (∀ n, n ∈ possibleSorted current eligible ↔ (n ∈ eligible ∧ ¬ n ∈ current)) ∧
    (addPods rc current eligible).visited =
      (possibleSorted current eligible).take
        (rc.replicasDesired - (current.length : Int)).toNat ∧
    List.Sorted nodeLe (addPods rc current eligible).visited ∧
    (∀ (i : Nat) (x : String), (addPods rc current eligible).visited[i]? = some x →
      ((possibleSorted current eligible).filter (fun m =>
          decide (nodeLe m x ∧ m ≠ x))).length = i) := by
  have hmem : ∀ n, n ∈ possibleSorted current eligible ↔
      (n ∈ eligible ∧ ¬ n ∈ current) := by
    intro n
    rw [possibleSorted, mem_sortNodes, List.mem_filter]
    simp
  have hvis : (addPods rc current eligible).visited =
      (possibleSorted current eligible).take
        (rc.replicasDesired - (current.length : Int)).toNat := by
    rw [addPods, addPodsLoop_visited]
    simp
  have hsorted : List.Sorted nodeLe (possibleSorted current eligible) :=
    sorted_sortNodes _
  have hnodup : (possibleSorted current eligible).Nodup :=
    nodup_sortNodes _
  refine ⟨hmem, hvis, ?_, ?_⟩
  · rw [hvis]
    exact hsorted.sublist (List.take_sublist _ _)
  · intro i x hx
    rw [hvis] at hx
    rw [List.getElem?_eq_some] at hx
    obtain ⟨hb, hx⟩ := hx
    have hi2 : i < (possibleSorted current eligible).length := by
      rw [List.length_take] at hb
      omega
    have hxg : (possibleSorted current eligible).get ⟨i, hi2⟩ = x := by
      rw [← hx]
      exact (List.getElem_take _).symm
    exact sorted_filter_rank x _ hsorted hnodup i hi2 hxg

/-- **C7** witness: desired 2, current empty, eligible `["nodeB", "nodeA"]`
— the first schedule targets "nodeA" (smallest) and the second "nodeB". -/
theorem addPods_sorted_schedule_witness :
    (addPods ⟨"rc-1", ⟨"the-pod", "sha-1"⟩, 2, false, [], .cattle⟩
        [] ["nodeB", "nodeA"]).visited =
      (possibleSorted [] ["nodeB", "nodeA"]).take 2 ∧
    ((possibleSorted [] ["nodeB", "nodeA"]).filter (fun m =>
        decide (nodeLe m "nodeB" ∧ m ≠ "nodeB"))).length = 1 :=
  ⟨(addPods_sorted_schedule ⟨"rc-1", ⟨"the-pod", "sha-1"⟩, 2, false, [], .cattle⟩
      [] ["nodeB", "nodeA"]).2.1,
   (addPods_sorted_schedule ⟨"rc-1", ⟨"the-pod", "sha-1"⟩, 2, false, [], .cattle⟩
      [] ["nodeB", "nodeA"]).2.2.2 1 "nodeB" (by decide)⟩

/-- **C9**: when there are fewer candidates than pods still to schedule,
`addPods` sends exactly one alert, commits every queued scheduling
operation (the pending batch is flushed before failing), and fails the
pass with an error. -/
theorem addPods_insufficient_capacity (rc : RC) (current eligible : List String)
    (h : (possibleSorted current eligible).length <
      (rc.replicasDesired - (current.length : Int)).toNat) :
    (addPods rc current eligible).err.isSome = true ∧
    (addPods rc current eligible).alerts = 1 ∧
    ((addPods rc current eligible).committed.flatten).filter isSchedulingOp =
      (possibleSorted current eligible).flatMap (scheduleNoAudit rc) := by
  refine ⟨?_, ?_, ?_⟩
  · rw [addPods, addPodsLoop_errIsSome _ _ _ _ _ _ _ _ (Nat.zero_le _)]
    simpa using h
  · rw [addPods, addPodsLoop_alerts _ _ _ _ _ _ _ _ (Nat.zero_le _)]
    have h0 : (possibleSorted current eligible).length <
        0 + (rc.replicasDesired - (current.length : Int)).toNat := by omega
    simp only [if_pos h0]
  · rw [addPods, addPodsLoop_schedOps]
    have hle : (possibleSorted current eligible).length ≤
        rc.replicasDesired.toNat - current.length := by omega
    simp [newAuditingTransaction, List.take_of_length_le (Nat.le_of_lt h),
      List.take_of_length_le hle]

/-- **C9** witness: desired 2 with a single eligible candidate — the pass
fails, one alert is sent, and the one schedule that fit was committed. -/
theorem addPods_insufficient_capacity_witness :
    (addPods ⟨"rc-1", ⟨"the-pod", "sha-1"⟩, 2, false, [], .cattle⟩
        [] ["n1"]).err.isSome = true ∧
    (addPods ⟨"rc-1", ⟨"the-pod", "sha-1"⟩, 2, false, [], .cattle⟩
        [] ["n1"]).alerts = 1 ∧
    (((addPods ⟨"rc-1", ⟨"the-pod", "sha-1"⟩, 2, false, [], .cattle⟩
        [] ["n1"]).committed.flatten).filter isSchedulingOp =
      (possibleSorted [] ["n1"]).flatMap
        (scheduleNoAudit ⟨"rc-1", ⟨"the-pod", "sha-1"⟩, 2, false, [], .cattle⟩)) :=
  addPods_insufficient_capacity ⟨"rc-1", ⟨"the-pod", "sha-1"⟩, 2, false, [], .cattle⟩
    [] ["n1"] (by decide)

/-- **C8**: in `removePods`, whenever the number of pods to remove is
positive, the ineligible current nodes are unscheduled before any node of
the current-and-eligible intersection: once the `i`-th unschedule targets
an eligible node, every later unschedule does too. -/
theorem removePods_prefers_ineligible (rc : RC) (current eligible : List String)
    (hpos : 0 < ((current.length : Int) - rc.replicasDesired).toNat) :
    ∀ (i j : Nat) (x y : String), i ≤ j →
      (removePods rc current eligible).visited[i]? = some x →
      (removePods rc current eligible).visited[j]? = some y →
      x ∈ eligible → y ∈ eligible := by
  intro i j x y hij hx hy hxe
  rw [removePods, removePodsLoop_visited] at hx hy
  simp only [List.nil_append] at hx hy
  rw [List.getElem?_eq_some] at hx hy
  obtain ⟨hbx, hx⟩ := hx
  obtain ⟨hby, hy⟩ := hy
  rw [List.getElem_take] at hx hy
  have hlx : i < (sortNodes (current.filter (fun n => ¬ (n ∈ eligible))) ++
      (sortNodes current).filter
        (fun n => ¬ (n ∈ current.filter (fun m => ¬ (m ∈ eligible))))).length := by
    rw [List.length_take] at hbx
    omega
  have hly : j < (sortNodes (current.filter (fun n => ¬ (n ∈ eligible))) ++
      (sortNodes current).filter
        (fun n => ¬ (n ∈ current.filter (fun m => ¬ (m ∈ eligible))))).length := by
    rw [List.length_take] at hby
    omega
  have hplen : (sortNodes (current.filter (fun n => ¬ (n ∈ eligible)))).length ≤ i := by
    by_contra hcon
    push_neg at hcon
    rw [List.getElem_append_left hcon] at hx
    have hmem : x ∈ sortNodes (current.filter (fun n => ¬ (n ∈ eligible))) := by
      rw [← hx]
      exact List.getElem_mem _
    rw [mem_sortNodes, List.mem_filter] at hmem
    simp at hmem
    exact hmem.2 hxe
  have hjlen : (sortNodes (current.filter (fun n => ¬ (n ∈ eligible)))).length ≤ j :=
    le_trans hplen hij
  rw [List.getElem_append_right hjlen] at hy
  have hmem : y ∈ (sortNodes current).filter
      (fun n => ¬ (n ∈ current.filter (fun m => ¬ (m ∈ eligible)))) := by
    rw [← hy]
    exact List.getElem_mem _
  rw [List.mem_filter] at hmem
  obtain ⟨hyc, hyp⟩ := hmem
  rw [mem_sortNodes] at hyc
  simp [List.mem_filter] at hyp
  rcases hyp with hnc | hye
  · exact absurd hyc hnc
  · exact hye

/-- **C8** witness: current `["a","b","c"]`, eligible `["b","c"]`, desired
0 — the unschedule order is `["a","b","c"]`; position 1 targets eligible
"b", so position 2 targets an eligible node too. -/
theorem removePods_prefers_ineligible_witness : ("c" : String) ∈ ["b", "c"] :=
  removePods_prefers_ineligible ⟨"rc-1", ⟨"the-pod", "sha-1"⟩, 0, false, [], .cattle⟩
    ["a", "b", "c"] ["b", "c"] (by decide) 1 2 "b" "c" (by decide)
    (by decide) (by decide) (by decide)

/-- **C10**: every pod-label write performed when scheduling — by
`addPods` (through `schedule`/`scheduleNoAudit`), by `ensureConsistency`
(through `scheduleNoAudit`), or by `finalizeCompleteTransfer` — applies
exactly `computePodLabels`, whose `pod_id` binding is the manifest's ID
and whose `replication_controller_id` binding is the RC's ID, no matter
what user-supplied `PodLabels` entries (including conflicting ones) the RC
carries. -/
theorem scheduling_label_writes_reserved (rc : RC)
    (current eligible cur2 : List String) (store : String → Option Manifest)
    (newNode oldNode : String) :
    ∀ key lbls,
      (Op.setLabels key lbls ∈ (addPods rc current eligible).committed.flatten ∨
       Op.setLabels key lbls ∈ (ensureConsistency rc store cur2).flatten ∨
       Op.setLabels key lbls ∈
         (finalizeCompleteTransfer rc cur2 newNode oldNode).flatten) →
      mapGet lbls PodIDLabel = some rc.manifest.id ∧
      mapGet lbls RCIDLabel = some rc.id := by
  intro key lbls hmem
  have hcl : lbls = computePodLabels rc := by
    rcases hmem with h | h | h
    · have h2 : Op.setLabels key lbls ∈
          ((addPods rc current eligible).committed.flatten).filter isSchedulingOp :=
        List.mem_filter.mpr ⟨h, by simp [isSchedulingOp]⟩
      rw [addPods, addPodsLoop_schedOps] at h2
      simp only [newAuditingTransaction, List.flatten_nil, List.filter_nil,
        List.nil_append, List.mem_flatMap] at h2
      obtain ⟨n, -, hop⟩ := h2
      simp [scheduleNoAudit] at hop
      exact hop.2
    · rw [ensureConsistency, ensureConsistencyLoop_flatten] at h
      simp only [List.flatten_nil, List.nil_append, List.mem_flatMap] at h
      obtain ⟨n, -, hop⟩ := h
      by_cases hw : needsWrite rc store n = true
      · rw [if_pos hw] at hop
        simp [scheduleNoAudit] at hop
        exact hop.2
      · rw [if_neg hw] at hop
        exact absurd hop (by simp)
    · simp [finalizeCompleteTransfer, commitAudit, unscheduleOps,
        newAuditingTransaction] at h
      exact h.2
  rw [hcl]
  exact ⟨(computePodLabels_reserved rc).1, (computePodLabels_reserved rc).2⟩

/-- **C10** witness: an RC whose user labels try to override `pod_id` with
"evil" — the label write scheduled by `addPods` still carries the
manifest's ID and the RC's ID. -/
theorem scheduling_label_writes_reserved_witness :
    mapGet (computePodLabels
        ⟨"rc-1", ⟨"the-pod", "sha-1"⟩, 1, false, [("pod_id", "evil")], .cattle⟩)
      PodIDLabel = some "the-pod" ∧
    mapGet (computePodLabels
        ⟨"rc-1", ⟨"the-pod", "sha-1"⟩, 1, false, [("pod_id", "evil")], .cattle⟩)
      RCIDLabel = some "rc-1" :=
  scheduling_label_writes_reserved
    ⟨"rc-1", ⟨"the-pod", "sha-1"⟩, 1, false, [("pod_id", "evil")], .cattle⟩
    [] ["n1"] [] (fun _ => none) "n" "n"
    (MakePodLabelKey "n1" "the-pod")
    (computePodLabels
      ⟨"rc-1", ⟨"the-pod", "sha-1"⟩, 1, false, [("pod_id", "evil")], .cattle⟩)
    (Or.inl (by decide))

/-- **C3**: when the RC's Disabled flag is set, `meetDesires` returns a
nil error having performed no reads of current placement, no store writes
and no alerts — and it leaves the node-transfer status exactly as it was:
an in-flight node transfer is not cancelled (the halt is only a TODO
comment in the source's disabled branch). -/
theorem meetDesires_disabled (rc : RC) (env : Env) (hd : rc.disabled = true) :
    meetDesires rc env = (none, [], env.status) := by
  rw [meetDesires, if_pos hd]

/-- **C3** witness: a disabled RC with an in-flight transfer
`{old: "n1", new: "n2"}` — `meetDesires` returns nil, does nothing, and
the transfer record survives untouched. -/
theorem meetDesires_disabled_witness :
    meetDesires ⟨"rc-1", ⟨"the-pod", "sha-1"⟩, 1, true, [], .cattle⟩
        ⟨["n1"], ["n1"], ["n1"], fun _ => none, some ⟨"n1", "n2"⟩, true, []⟩ =
      (none, [], some ⟨"n1", "n2"⟩) :=
  meetDesires_disabled ⟨"rc-1", ⟨"the-pod", "sha-1"⟩, 1, true, [], .cattle⟩
    ⟨["n1"], ["n1"], ["n1"], fun _ => none, some ⟨"n1", "n2"⟩, true, []⟩ rfl

/-- **C4**: a non-empty ineligible set handed to the transfer engine of a
non-cattle RC (no transfer in progress, alert delivery succeeding) emits
exactly one alert and writes no node-transfer status record — but the
engine returns a nil error, because the source's non-cattle branch returns
the alerter's error (`return nil, err` after `err := alerter.Alert(...)`),
which is nil whenever the alert is delivered; the claim's "returns an
error" clause therefore fails on the code. -/
theorem transferNodes_pinned (rc : RC) (ineligible allocated : List String)
    (hstrat : rc.allocationStrategy ≠ Strategy.cattle) (hne : ineligible ≠ []) :
    (transferNodes rc ineligible none true allocated).alerts = 1 ∧
    (transferNodes rc ineligible none true allocated).statusWrites = [] ∧
    (transferNodes rc ineligible none true allocated).err = none := by
  rw [transferNodes]
  simp [updateAllocationsAndReschedule, hstrat]

/-- **C4** witness: a pinned RC with one ineligible node — one alert, no
status write, nil error. -/
theorem transferNodes_pinned_witness :
    (transferNodes ⟨"rc-1", ⟨"the-pod", "sha-1"⟩, 1, false, [], .pinned⟩
        ["n1"] none true []).alerts = 1 ∧
    (transferNodes ⟨"rc-1", ⟨"the-pod", "sha-1"⟩, 1, false, [], .pinned⟩
        ["n1"] none true []).statusWrites = [] ∧
    (transferNodes ⟨"rc-1", ⟨"the-pod", "sha-1"⟩, 1, false, [], .pinned⟩
        ["n1"] none true []).err = none :=
  transferNodes_pinned ⟨"rc-1", ⟨"the-pod", "sha-1"⟩, 1, false, [], .pinned⟩
    ["n1"] [] (by decide) (by decide)

end P2
